import Mathlib

/-!
Verification of the Faculty Subject Allocation System (CSP-based scheduler).

The Python source is shallowly embedded: Python dicts become association
lists (insertion-ordered, as in CPython), Python sets become lists queried
only through membership, floats become rationals, and the mutable solver
object becomes an explicit state record threaded through the search.
-/

set_option maxHeartbeats 1600000

/-- Variables of the CSP are (subject_id, timeslot_id) pairs. -/
abbrev Var := Nat × Nat

/-- Values are (faculty_id, classroom_id) pairs. -/
abbrev Val := Nat × Nat

/-- An assignment is an insertion-ordered association list, mirroring a
Python dict mapping variables to values. -/
abbrev Assignment := List (Var × Val)

/-- Python dict membership test for a key. -/
def hasKey {κ β : Type} [DecidableEq κ] (a : List (κ × β)) (k : κ) : Bool :=
  a.any (fun p => p.1 = k)

/-- Python dict lookup: the value stored at the first (unique) occurrence
of the key. -/
def lookupA {κ β : Type} [DecidableEq κ] : List (κ × β) → κ → Option β
  | [], _ => none
  | p :: ps, k => if p.1 = k then some p.2 else lookupA ps k

/-- Python dict store d[k] = v: replace in place when the key is present,
append otherwise. -/
def dictSet {κ β : Type} [DecidableEq κ] (a : List (κ × β)) (k : κ) (v : β) :
    List (κ × β) :=
  if hasKey a k then a.map (fun p => if p.1 = k then (k, v) else p)
  else a ++ [(k, v)]

/-- Python dict del d[k]: remove the (unique) entry with the key. -/
def eraseKey {κ β : Type} [DecidableEq κ] : List (κ × β) → κ → List (κ × β)
  | [], _ => []
  | p :: ps, k => if p.1 = k then ps else p :: eraseKey ps k

/-- Helper for pyDedup, threading the list of already-seen elements. -/
def pyDedupGo {α : Type} [DecidableEq α] : List α → List α → List α
  | acc, [] => acc
  | acc, x :: xs => pyDedupGo (if x ∈ acc then acc else acc ++ [x]) xs

/-- Deduplication keeping first occurrences in order, as Python dict keys
and sets (built by repeated insertion) behave. -/
def pyDedup {α : Type} [DecidableEq α] (l : List α) : List α :=
  pyDedupGo [] l

/-- Stable insertion used by sortBy. -/
def insertBy {α : Type} (le : α → α → Bool) (x : α) : List α → List α
  | [] => [x]
  | y :: ys => if le x y then x :: y :: ys else y :: insertBy le x ys

/-- Stable sort (insertion sort). Python's sorted() is a stable sort, so any
stable sort with the same ordering predicate is observationally equal. -/
def sortBy {α : Type} (le : α → α → Bool) : List α → List α
  | [] => []
  | x :: xs => insertBy le x (sortBy le xs)

/-- First-success iteration: Python for-loops of the shape
"for x in l: if attempt(x) succeeds: commit and break". -/
def firstSome {α β : Type} (f : α → Option β) : List α → Option β
  | [] => none
  | x :: xs => match f x with
    | some b => some b
    | none => firstSome f xs

/-- Faculty record (fields of the rows consumed by the scheduler). The
comma-separated sub-fields of the spreadsheet are modelled as already
parsed into lists, as faculty_scheduler.py normalises them on every use. -/
structure Faculty where
  id : Nat
  name : String
  qualified_subjects : List Nat
  max_hours : Nat
  day_preferences : List String
  time_preferences : List String
  consecutive_classes_preference : Int
  preference_weight : Rat
deriving DecidableEq

/-- Subject record. -/
structure Subject where
  id : Nat
  name : String
  hours : Nat
  lab_hours : Nat
deriving DecidableEq

/-- Classroom record. -/
structure Classroom where
  id : Nat
  name : String
  has_lab : Bool
deriving DecidableEq

/-- Timeslot record. -/
structure Timeslot where
  id : Nat
  day : String
  time : String
  period : String
deriving DecidableEq

/-- A problem instance: the four reference tables loaded into a
FacultyScheduler. -/
structure Instance where
  faculty : List Faculty
  subjects : List Subject
  classrooms : List Classroom
  timeslots : List Timeslot
deriving DecidableEq

/-- Python next((f for f in self.faculty if f['id'] == fid), None). -/
def findFaculty (inst : Instance) (fid : Nat) : Option Faculty :=
  inst.faculty.find? (fun f => f.id = fid)

/-- Python next((s for s in self.subjects if s['id'] == sid), None). -/
def findSubject (inst : Instance) (sid : Nat) : Option Subject :=
  inst.subjects.find? (fun s => s.id = sid)

/-- Python next((c for c in self.classrooms if c['id'] == cid), None). -/
def findClassroom (inst : Instance) (cid : Nat) : Option Classroom :=
  inst.classrooms.find? (fun c => c.id = cid)

/-- FacultyScheduler.calculate_faculty_preference_score, with floats
modelled as rationals. The current_schedule argument is the Python dict
mapping faculty ids to sets of timeslot ids. -/
def calculate_faculty_preference_score (inst : Instance) (faculty : Faculty)
    (timeslot : Timeslot) (current_schedule : List (Nat × List Nat)) : Rat :=
  let score : Rat := 0
  let score := if timeslot.day ∈ faculty.day_preferences then score + 3 else score
  let score := if timeslot.period ∈ faculty.time_preferences then score + 2 else score
  let adjacent_timeslots : List Nat :=
    inst.timeslots.filterMap (fun ts =>
      if ts.day = timeslot.day ∧ ts.id ≠ timeslot.id ∧
          ((ts.id : Int) - (timeslot.id : Int)).natAbs = 1
      then some ts.id else none)
  let has_adjacent_class : Bool :=
    match lookupA current_schedule faculty.id with
    | none => false
    | some slots => adjacent_timeslots.any (fun tsId => tsId ∈ slots)
  let score := if has_adjacent_class then
      score + (faculty.consecutive_classes_preference : Rat) / 5 * 2
    else score
  let normalized_weight : Rat := min 5 (max (1/10) faculty.preference_weight) / 5
  score * normalized_weight

/-- Modelled from the spec wording of the preference score (section 4.3 and
claim C8): a closed-form sum of the day bonus, the period bonus and the
consecutive-class adjustment, multiplied by the clamped normalized weight. -/
def specPreferenceScore (inst : Instance) (faculty : Faculty)
    (timeslot : Timeslot) (current_schedule : List (Nat × List Nat)) : Rat :=
  let dayBonus : Rat := if timeslot.day ∈ faculty.day_preferences then 3 else 0
  let periodBonus : Rat := if timeslot.period ∈ faculty.time_preferences then 2 else 0
  let adjCondition : Bool :=
    inst.timeslots.any (fun ts =>
      decide (ts.day = timeslot.day) &&
      decide (((ts.id : Int) - (timeslot.id : Int)).natAbs = 1) &&
      (match lookupA current_schedule faculty.id with
       | none => false
       | some slots => decide (ts.id ∈ slots)))
  let consecAdj : Rat :=
    if adjCondition then (faculty.consecutive_classes_preference : Rat) / 5 * 2 else 0
  (dayBonus + periodBonus + consecAdj) * (min 5 (max (1/10) faculty.preference_weight) / 5)

/-- State of csp_solver.CSPSolver: registered variables (field vars, since
Lean reserves the source's name), the domain dict, the injected constraint
predicates, and the mutable assignment map. -/
structure CSPSolver where
  vars : List Var
  domains : List (Var × List Val)
  constraints : List (Assignment → Bool)
  assignment : Assignment

/-- CSPSolver.__init__. -/
def CSPSolver.empty : CSPSolver := ⟨[], [], [], []⟩

/-- CSPSolver.add_variable: unconditionally appends the variable and stores
a copy of the domain (replacing any previous domain for the same key). -/
def add_variable (S : CSPSolver) (var : Var) (domain : List Val) : CSPSolver :=
  { S with vars := S.vars ++ [var],
           domains := dictSet S.domains var domain }

/-- CSPSolver.add_constraint. -/
def add_constraint (S : CSPSolver) (c : Assignment → Bool) : CSPSolver :=
  { S with constraints := S.constraints ++ [c] }

/-- CSPSolver.is_consistent: evaluate every constraint on the assignment
extended (on a copy) with the candidate pair. -/
def is_consistent (S : CSPSolver) (var : Var) (value : Val)
    (assignment : Assignment) : Bool :=
  S.constraints.all (fun c => c (dictSet assignment var value))

/-- Unassigned variables, in registration order. -/
def unassignedVars (S : CSPSolver) : List Var :=
  S.vars.filter (fun v => !(hasKey S.assignment v))

/-- Inner count_constraints of select_unassigned_variable: the number of
other unassigned variables sharing a subject id or a timeslot id. -/
def count_constraints (S : CSPSolver) (var : Var) : Nat :=
  (unassignedVars S).countP
    (fun other => decide (other ≠ var) && (decide (other.1 = var.1) || decide (other.2 = var.2)))

/-- Domain of a variable as read by the solver (self.domains[var]). -/
def domainOf (S : CSPSolver) (var : Var) : List Val :=
  (lookupA S.domains var).getD []

/-- Sort key used by select_unassigned_variable:
(len(self.domains[var]), -count_constraints(var)). -/
def selectKey (S : CSPSolver) (var : Var) : Nat × Int :=
  ((domainOf S var).length, -(count_constraints S var : Int))

/-- Strict lexicographic comparison on the sort key, the order Python's
min uses on the tuples. -/
def keyLtB (a b : Nat × Int) : Bool :=
  decide (a.1 < b.1) || (decide (a.1 = b.1) && decide (a.2 < b.2))

/-- Python min over a nonempty list: keep the current best, replace only on
a strictly smaller key, so the first minimal element wins. -/
def pickMin {α : Type} (key : α → Nat × Int) : α → List α → α
  | best, [] => best
  | best, x :: xs => if keyLtB (key x) (key best) then pickMin key x xs else pickMin key best xs

/-- CSPSolver.select_unassigned_variable: MRV with degree tie-break. -/
def select_unassigned_variable (S : CSPSolver) : Option Var :=
  match unassignedVars S with
  | [] => none
  | x :: xs => some (pickMin (selectKey S) x xs)

/-- CSPSolver.order_domain_values: returns the stored domain untouched. -/
def order_domain_values (S : CSPSolver) (var : Var) : List Val :=
  domainOf S var

/-- Inner loop of CSPSolver.forward_check over all registered variables,
carrying the wipeouts counter. The counter is only incremented inside the
debug branch gated on the extended assignment having exactly 11 entries;
this is faithful to the source, where the wipeout bookkeeping (and hence
the failure return) is part of the debug scaffolding. -/
def fcLoop (S : CSPSolver) (temp : Assignment) : List Var → Nat → Bool
  | [], w => decide (w = 0)
  | v :: vs, w =>
    if hasKey temp v then fcLoop S temp vs w
    else if (domainOf S v).any (fun x => is_consistent S v x temp) then
      fcLoop S temp vs w
    else
      let w2 := if temp.length = 11 then w + 1 else w
      if 5 < w2 then false else fcLoop S temp vs w2

/-- CSPSolver.forward_check. -/
def forward_check (S : CSPSolver) (var : Var) (value : Val) : Bool :=
  fcLoop S (dictSet S.assignment var value) S.vars 0

/-- Value loop of CSPSolver.backtrack: try each ordered domain value,
committing into the assignment before recursing and deleting the key again
when the recursive call fails. The recursive backtrack call is passed in
as btf. -/
def tryValues (btf : CSPSolver → Option Assignment × CSPSolver) (var : Var) :
    CSPSolver → List Val → Option Assignment × CSPSolver
  | S, [] => (none, S)
  | S, value :: rest =>
    if is_consistent S var value S.assignment && forward_check S var value then
      match btf { S with assignment := dictSet S.assignment var value } with
      | (some r, S2) => (some r, S2)
      | (none, S2) =>
        tryValues btf var { S2 with assignment := eraseKey S2.assignment var } rest
    else tryValues btf var S rest

/-- CSPSolver.backtrack with explicit fuel. One unit of fuel is spent per
recursion level; since every level commits one more variable, fuel
exceeding the variable count reproduces the Python recursion exactly. -/
def backtrackFuel : Nat → CSPSolver → Option Assignment × CSPSolver
  | 0, S => (none, S)
  | f + 1, S =>
    if S.assignment.length = S.vars.length then (some S.assignment, S)
    else
      match select_unassigned_variable S with
      | none => (none, S)
      | some var => tryValues (backtrackFuel f) var S (order_domain_values S var)

/-- CSPSolver.solve: reset the assignment to the empty dict, then run the
backtracking search. -/
def CSPSolver.solve (S : CSPSolver) : Option Assignment × CSPSolver :=
  backtrackFuel (S.vars.length + 1) { S with assignment := [] }

/-- Subject hours as read inside faculty_requirements_constraint: a missing
subject contributes zero. -/
def subjectHoursD (inst : Instance) (sid : Nat) : Nat :=
  ((findSubject inst sid).map (fun s => s.hours)).getD 0

/-- Set of distinct subject ids assigned to one faculty id, mirroring the
per-faculty set built by faculty_requirements_constraint. -/
def assignedSubjectIds (fid : Nat) (assignment : Assignment) : List Nat :=
  pyDedup (assignment.filterMap (fun e => if e.2.1 = fid then some e.1.1 else none))

/-- FacultyScheduler.faculty_requirements_constraint: group assigned
subjects by faculty, dedup by subject id, sum hours, compare with that
faculty's max hours; faculty ids without a record are skipped. -/
def faculty_requirements_constraint (inst : Instance) (assignment : Assignment) : Bool :=
  (pyDedup (assignment.map (fun e => e.2.1))).all (fun fid =>
    match findFaculty inst fid with
    | none => true
    | some f =>
      ((assignedSubjectIds fid assignment).map (subjectHoursD inst)).sum ≤ f.max_hours)

/-- Scan of no_faculty_conflicts_constraint, carrying the set of
(faculty_id, timeslot_id) pairs already seen. -/
def nfcAux : Assignment → List (Nat × Nat) → Bool
  | [], _ => true
  | e :: rest, seen =>
    if (e.2.1, e.1.2) ∈ seen then false
    else nfcAux rest ((e.2.1, e.1.2) :: seen)

/-- FacultyScheduler.no_faculty_conflicts_constraint: fails as soon as a
faculty id recurs at the same timeslot. -/
def no_faculty_conflicts_constraint (assignment : Assignment) : Bool :=
  nfcAux assignment []

/-- Scan of no_classroom_collision_constraint, carrying the set of
(classroom_id, timeslot_id) keys already seen. -/
def nccAux : Assignment → List (Nat × Nat) → Bool
  | [], _ => true
  | e :: rest, seen =>
    if (e.2.2, e.1.2) ∈ seen then false
    else nccAux rest ((e.2.2, e.1.2) :: seen)

/-- FacultyScheduler.no_classroom_collision_constraint. -/
def no_classroom_collision_constraint (assignment : Assignment) : Bool :=
  nccAux assignment []

/-- Membership of a subject id in the subjects_with_labs dict built by
handle_labs_constraint. -/
def subjectHasLabB (inst : Instance) (sid : Nat) : Bool :=
  inst.subjects.any (fun s => decide (s.id = sid) && decide (0 < s.lab_hours))

/-- FacultyScheduler.handle_labs_constraint: every entry whose subject has
lab hours must sit in a classroom with lab facilities; an entry whose
classroom id is not in the table is only warned about and skipped. -/
def handle_labs_constraint (inst : Instance) (assignment : Assignment) : Bool :=
  assignment.all (fun e =>
    if subjectHasLabB inst e.1.1 then
      match findClassroom inst e.2.2 with
      | none => true
      | some c => c.has_lab
    else true)

/-- Faculty ids qualified to teach a subject, in table order
(suitable_faculty in setup_csp). -/
def suitable_faculty (inst : Instance) (sid : Nat) : List Nat :=
  inst.faculty.filterMap (fun f =>
    if sid ∈ f.qualified_subjects then some f.id else none)

/-- Eligible classrooms for a subject in setup_csp: lab classrooms only
when the subject requires a lab, all classrooms otherwise. -/
def eligible_classrooms (inst : Instance) (requires_lab : Bool) : List Classroom :=
  if requires_lab then inst.classrooms.filter (fun c => c.has_lab) else inst.classrooms

/-- Domain values with preference scores for one (subject, timeslot)
variable, in the construction order of setup_csp. -/
def rawDomainValues (inst : Instance) (subject : Subject) (timeslot : Timeslot) :
    List (Val × Rat) :=
  (suitable_faculty inst subject.id).flatMap (fun fid =>
    match findFaculty inst fid with
    | none => []
    | some fac =>
      let score := calculate_faculty_preference_score inst fac timeslot []
      (eligible_classrooms inst (decide (0 < subject.lab_hours))).map
        (fun c => ((fid, c.id), score)))

/-- Domain of one variable after the stable descending sort by preference
score performed in setup_csp. -/
def sortedDomainValues (inst : Instance) (subject : Subject) (timeslot : Timeslot) :
    List Val :=
  (sortBy (fun a b => decide (b.2 ≤ a.2)) (rawDomainValues inst subject timeslot)).map
    (fun p => p.1)

/-- Subject processing order of setup_csp: lab subjects first, untouched
table order within each group. -/
def ordered_subjects (inst : Instance) : List Subject :=
  inst.subjects.filter (fun s => decide (0 < s.lab_hours)) ++
    inst.subjects.filter (fun s => decide (s.lab_hours = 0))

/-- Variable/domain pairs registered by setup_csp, skipping variables whose
domain came out empty. -/
def setupPairs (inst : Instance) : List (Var × List Val) :=
  (ordered_subjects inst).flatMap (fun subject =>
    inst.timeslots.filterMap (fun timeslot =>
      let d := sortedDomainValues inst subject timeslot
      if d.isEmpty then none else some ((subject.id, timeslot.id), d)))

/-- FacultyScheduler.setup_csp followed by add_constraints: fresh solver,
variables with non-empty domains registered in order, then the four hard
constraints. -/
def setup_csp (inst : Instance) : CSPSolver :=
  let S := (setupPairs inst).foldl (fun S p => add_variable S p.1 p.2) CSPSolver.empty
  { S with constraints :=
      [faculty_requirements_constraint inst,
       no_faculty_conflicts_constraint,
       no_classroom_collision_constraint,
       handle_labs_constraint inst] }

/-- Ids of lab subjects, as computed in FacultyScheduler.solve. -/
def lab_subject_ids (inst : Instance) : List Nat :=
  (inst.subjects.filter (fun s => decide (0 < s.lab_hours))).map (fun s => s.id)

/-- Ids of lab classrooms, as computed in FacultyScheduler.solve. -/
def lab_classroom_ids (inst : Instance) : List Nat :=
  (inst.classrooms.filter (fun c => c.has_lab)).map (fun c => c.id)

/-- Lab-subject variables of the solver, sorted by (subject_id,
timeslot_id) as in FacultyScheduler.solve. -/
def lab_variables (inst : Instance) (S : CSPSolver) : List Var :=
  sortBy (fun a b => decide (a.1 < b.1) || (decide (a.1 = b.1) && decide (a.2 ≤ b.2)))
    (S.vars.filter (fun v => decide (v.1 ∈ lab_subject_ids inst)))

/-- Hybrid lab pre-assignment of FacultyScheduler.solve: for each lab
variable take the first domain value whose classroom has a lab and which is
consistent with the seed built so far. -/
def hybridSeed (inst : Instance) (S : CSPSolver) : Assignment :=
  (lab_variables inst S).foldl
    (fun acc var =>
      match firstSome (fun value =>
          if decide (value.2 ∈ lab_classroom_ids inst) && is_consistent S var value acc
          then some value else none) (domainOf S var) with
      | some value => dictSet acc var value
      | none => acc)
    []

/-- Tail of FacultyScheduler.solve: store the hybrid seed in the solver and
call CSPSolver.solve on it. -/
def scheduler_hybrid (inst : Instance) (S : CSPSolver) : Option Assignment :=
  (CSPSolver.solve { S with assignment := hybridSeed inst S }).1

/-- FacultyScheduler.solve without caller pre-assignments: set up the CSP,
then run the hybrid path. -/
def scheduler_solve (inst : Instance) : Option Assignment :=
  scheduler_hybrid inst (setup_csp inst)

/-- FacultyScheduler.solve with caller pre-assignments: seed the solver
with them, call CSPSolver.solve, and on failure reset the assignment and
fall back to the hybrid path. -/
def scheduler_solve_pre (inst : Instance) (pre : Assignment) : Option Assignment :=
  let S := setup_csp inst
  if pre.isEmpty then scheduler_hybrid inst S
  else
    match CSPSolver.solve { S with assignment := pre } with
    | (some sol, _) => some sol
    | (none, S1) => scheduler_hybrid inst { S1 with assignment := [] }

/-- Schedule row appended by FacultyScheduler.direct_solve. -/
structure DirectEntry where
  faculty_id : Nat
  faculty_name : String
  subject_id : Nat
  subject_name : String
  has_lab : Bool
  timeslot_id : Nat
  timeslot_day : String
  timeslot_time : String
  classroom_id : Nat
  classroom_name : String
deriving DecidableEq

/-- Mutable tracking state of direct_solve: the schedule built so far plus
the per-faculty hour and timeslot trackers and the used
(classroom, timeslot) pairs. -/
structure DirectState where
  schedule : List DirectEntry
  faculty_hours : List (Nat × Nat)
  faculty_timeslots : List (Nat × List Nat)
  used_classroom_timeslots : List (Nat × Nat)
deriving DecidableEq

/-- Initial direct_solve state: empty schedule, zero hours and no timeslots
for every faculty. -/
def initDirectState (inst : Instance) : DirectState :=
  ⟨[], inst.faculty.map (fun f => (f.id, 0)),
    inst.faculty.map (fun f => (f.id, [])), []⟩

/-- Subject order of direct_solve: lab subjects sorted by descending
hours + lab hours, then non-lab subjects by descending hours, both stably. -/
def ordered_subjects_direct (inst : Instance) : List Subject :=
  sortBy (fun a b => decide (b.hours + b.lab_hours ≤ a.hours + a.lab_hours))
    (inst.subjects.filter (fun s => decide (0 < s.lab_hours))) ++
  sortBy (fun a b => decide (b.hours ≤ a.hours))
    (inst.subjects.filter (fun s => decide (s.lab_hours = 0)))

/-- Qualified faculty for a subject paired with the specialization score
1 / max(1, number of qualified subjects). -/
def qualified_faculty_scored (inst : Instance) (sid : Nat) : List (Faculty × Rat) :=
  inst.faculty.filterMap (fun f =>
    if sid ∈ f.qualified_subjects then
      some (f, (1 : Rat) / ((max 1 f.qualified_subjects.length : Nat) : Rat))
    else none)

/-- Composite ordering score of direct_solve for one candidate faculty:
hour ratio minus half the specialization (lower is better). -/
def faculty_score (st : DirectState) (ft : Faculty × Rat) : Rat :=
  let hour_ratio : Rat :=
    if 0 < ft.1.max_hours then
      (((lookupA st.faculty_hours ft.1.id).getD 0 : Nat) : Rat) / (ft.1.max_hours : Rat)
    else 0
  hour_ratio - (1/2) * ft.2

/-- Number of classrooms of the candidate list still free at a timeslot. -/
def availableClassroomCount (st : DirectState) (possible : List Classroom)
    (tid : Nat) : Nat :=
  (possible.filter (fun c =>
    !(decide ((c.id, tid) ∈ st.used_classroom_timeslots)))).length

/-- Schedule entry commit of direct_solve, updating all four trackers. -/
def direct_commit (st : DirectState) (subject : Subject) (f : Faculty)
    (timeslot : Timeslot) (c : Classroom) : DirectState :=
  { schedule := st.schedule ++
      [{ faculty_id := f.id, faculty_name := f.name,
         subject_id := subject.id, subject_name := subject.name,
         has_lab := decide (0 < subject.lab_hours),
         timeslot_id := timeslot.id, timeslot_day := timeslot.day,
         timeslot_time := timeslot.time,
         classroom_id := c.id, classroom_name := c.name }],
    faculty_hours := dictSet st.faculty_hours f.id
      ((lookupA st.faculty_hours f.id).getD 0 + subject.hours),
    faculty_timeslots := dictSet st.faculty_timeslots f.id
      ((lookupA st.faculty_timeslots f.id).getD [] ++ [timeslot.id]),
    used_classroom_timeslots := st.used_classroom_timeslots ++ [(c.id, timeslot.id)] }

/-- Classrooms of the candidate list still free at a timeslot, in order. -/
def free_rooms (st : DirectState) (possible : List Classroom) (tid : Nat) :
    List Classroom :=
  possible.filter (fun c => !(decide ((c.id, tid) ∈ st.used_classroom_timeslots)))

/-- Suitability sort of the free classrooms in direct_solve: dedicated lab
rooms first for lab subjects, non-lab rooms first otherwise. -/
def rooms_sorted (needs_lab : Bool) (rooms : List Classroom) : List Classroom :=
  if needs_lab then
    sortBy (fun a b =>
      decide ((if a.has_lab then 0 else 1 : Nat) ≤ (if b.has_lab then 0 else 1))) rooms
  else
    sortBy (fun a b =>
      decide ((if a.has_lab then 1 else 0 : Nat) ≤ (if b.has_lab then 1 else 0))) rooms

/-- Classroom loop of direct_solve for one candidate timeslot: commit with
the first suitably sorted free classroom, fail if none is left. -/
def try_timeslot (inst : Instance) (subject : Subject) (possible : List Classroom)
    (needs_lab : Bool) (st : DirectState) (f : Faculty)
    (tcc : Timeslot × Nat × (Rat × Nat)) : Option DirectState :=
  match rooms_sorted needs_lab (free_rooms st possible tcc.1.id) with
  | [] => none
  | c :: _ => some (direct_commit st subject f tcc.1 c)

/-- Attempt of direct_solve to place one subject with one candidate
faculty: skip on a workload overflow, otherwise walk the preference-sorted
free timeslots and take the first free classroom after suitability
sorting. -/
def assign_for_faculty (inst : Instance) (subject : Subject)
    (possible : List Classroom) (needs_lab : Bool) (st : DirectState)
    (f : Faculty) : Option DirectState :=
  if f.max_hours < (lookupA st.faculty_hours f.id).getD 0 + subject.hours then none
  else
    let available := inst.timeslots.filterMap (fun t =>
      if t.id ∈ (lookupA st.faculty_timeslots f.id).getD [] then none
      else some (t, availableClassroomCount st possible t.id))
    let scored := available.map (fun tc =>
      (tc.1, tc.2,
        (-(calculate_faculty_preference_score inst f tc.1 st.faculty_timeslots), tc.2)))
    let sorted := sortBy (fun a b =>
      decide (a.2.2.1 < b.2.2.1) ||
        (decide (a.2.2.1 = b.2.2.1) && decide (a.2.2.2 ≤ b.2.2.2))) scored
    firstSome (try_timeslot inst subject possible needs_lab st f) sorted

/-- Placement of one subject in direct_solve: try each qualified faculty in
composite-score order, committing with the first that fits. -/
def tryAssignSubject (inst : Instance) (st : DirectState) (subject : Subject) :
    Option DirectState :=
  let needs_lab := decide (0 < subject.lab_hours)
  let possible := if needs_lab then inst.classrooms.filter (fun c => c.has_lab)
    else inst.classrooms
  let qf := sortBy (fun a b => decide (faculty_score st a ≤ faculty_score st b))
    (qualified_faculty_scored inst subject.id)
  firstSome (assign_for_faculty inst subject possible needs_lab st) (qf.map (fun p => p.1))

/-- Subject loop of direct_solve: the whole construction fails at the first
subject that cannot be placed. -/
def directSolveAux (inst : Instance) : DirectState → List Subject → Option DirectState
  | st, [] => some st
  | st, s :: rest =>
    match tryAssignSubject inst st s with
    | none => none
    | some st2 => directSolveAux inst st2 rest

/-- FacultyScheduler.direct_solve, returning the final tracking state on
success and none on failure. -/
def direct_solve (inst : Instance) : Option DirectState :=
  directSolveAux inst (initDirectState inst) (ordered_subjects_direct inst)

/-- Equality of every solver field except the assignment. -/
def sameCore (S T : CSPSolver) : Prop :=
  T.vars = S.vars ∧ T.domains = S.domains ∧ T.constraints = S.constraints

/-- All injected constraints hold on an assignment. -/
def allC (cs : List (Assignment → Bool)) (a : Assignment) : Prop :=
  ∀ c ∈ cs, c a = true

/-- Every entry of the assignment takes its value from the stored domain of
its variable. -/
def QDom (doms : List (Var × List Val)) (e : Var × Val) : Prop :=
  ∃ d, lookupA doms e.1 = some d ∧ e.2 ∈ d

/-- Workload invariant as the claims state it: for every faculty record,
the summed hours of the distinct subjects assigned to its id stay within
its max hours. -/
def WorkloadInvariant (inst : Instance) (A : Assignment) : Prop :=
  ∀ f ∈ inst.faculty,
    ((assignedSubjectIds f.id A).map (subjectHoursD inst)).sum ≤ f.max_hours

/-- Shape of every domain stored by setup_csp: the sorted non-empty domain
of a subject record and a timeslot record of the instance with matching
ids. -/
def DomOK (inst : Instance) (v : Var) (d : List Val) : Prop :=
  ∃ subject ∈ inst.subjects, subject.id = v.1 ∧
    ∃ timeslot ∈ inst.timeslots, timeslot.id = v.2 ∧
      d = sortedDomainValues inst subject timeslot ∧ d ≠ []

/-- Invariant 2 of the data model: no faculty id recurs at one timeslot. -/
def FacultyConflictInvariant (A : Assignment) : Prop :=
  List.Pairwise (fun e1 e2 => e1.2.1 = e2.2.1 → e1.1.2 ≠ e2.1.2) A

/-- Invariant 3 of the data model: no (classroom, timeslot) pair recurs. -/
def ClassroomCollisionInvariant (A : Assignment) : Prop :=
  List.Pairwise (fun e1 e2 => (e1.2.2, e1.1.2) ≠ (e2.2.2, e2.1.2)) A

/-- Invariant 4 of the data model: lab subjects sit in lab classrooms. -/
def LabPlacementInvariant (inst : Instance) (A : Assignment) : Prop :=
  ∀ e ∈ A, ∀ s ∈ inst.subjects, s.id = e.1.1 → 0 < s.lab_hours →
    ∃ c ∈ inst.classrooms, c.id = e.2.2 ∧ c.has_lab = true

/-- Invariant 5 of the data model: assigned faculty are qualified. -/
def QualificationInvariant (inst : Instance) (A : Assignment) : Prop :=
  ∀ e ∈ A, ∃ f ∈ inst.faculty, f.id = e.2.1 ∧ e.1.1 ∈ f.qualified_subjects

/-- Tiny feasible instance: one qualified faculty, one non-lab subject, one
classroom, one timeslot. -/
def instW : Instance :=
  ⟨[⟨1, "A", [1], 10, [], [], 0, 1⟩], [⟨1, "S1", 3, 0⟩],
   [⟨1, "C1", false⟩], [⟨1, "Mon", "9-10", "Morning"⟩]⟩

/-- Instance of end-to-end scenario B: a lab subject (id 1) but no
lab-capable classroom, plus a satisfiable non-lab subject (id 2). -/
def instC4 : Instance :=
  ⟨[⟨1, "A", [1, 2], 10, [], [], 0, 1⟩], [⟨1, "L", 3, 2⟩, ⟨2, "N", 3, 0⟩],
   [⟨1, "C1", false⟩], [⟨1, "Mon", "9-10", "Morning"⟩]⟩

/-- Instance with two interchangeable faculty for one subject, used to
observe whether a caller-provided seed survives solving. -/
def instC3 : Instance :=
  ⟨[⟨1, "A", [1], 10, [], [], 0, 1⟩, ⟨2, "B", [1], 10, [], [], 0, 1⟩],
   [⟨1, "S", 3, 0⟩], [⟨1, "C", false⟩], [⟨1, "Mon", "9-10", "Morning"⟩]⟩

/-- Caller pre-assignment for instC3: subject 1 at timeslot 1 taught by
faculty 2 (a complete, constraint-satisfying assignment). -/
def preC3 : Assignment := [((1, 1), (2, 1))]

/-- Engine state with two variables whose single domain values collide on
the faculty-conflict constraint: committing the first wipes out the
second's domain. -/
def S2bug : CSPSolver :=
  ⟨[(1, 1), (2, 1)], [((1, 1), [(1, 1)]), ((2, 1), [(1, 1)])],
   [no_faculty_conflicts_constraint], []⟩

/-- Engine state with three unassigned variables of differing domain sizes
and degrees, for exercising variable selection. -/
def S6sel : CSPSolver :=
  ⟨[(1, 1), (1, 2), (2, 1)],
   [((1, 1), [(1, 1), (2, 1)]), ((1, 2), [(1, 1)]), ((2, 1), [(1, 1)])],
   [], []⟩

/-- Solver after one registration of variable (1, 1). -/
def S5a : CSPSolver := add_variable CSPSolver.empty (1, 1) [(1, 1)]

/-- Solver after registering the same variable (1, 1) a second time. -/
def S5b : CSPSolver := add_variable S5a (1, 1) [(2, 2)]

/-- Instance with a subject but no faculty at all, so direct construction
fails at the very first subject. -/
def instF9 : Instance :=
  ⟨[], [⟨1, "S", 3, 0⟩], [⟨1, "C", false⟩], [⟨1, "Mon", "9", "Morning"⟩]⟩

/-- Fallback direct state for Option.getD. -/
def dfltDirectState : DirectState := ⟨[], [], [], []⟩

/-- Final state of direct_solve on the feasible instance instW. -/
def stW9 : DirectState := (direct_solve instW).getD dfltDirectState

theorem hasKey_eq_false_iff {κ β : Type} [DecidableEq κ] {a : List (κ × β)} {k : κ} :
    hasKey a k = false ↔ ∀ p ∈ a, p.1 ≠ k := by
  simp [hasKey, List.any_eq_true]

theorem mem_dictSet {κ β : Type} [DecidableEq κ] {a : List (κ × β)} {k : κ} {v : β}
    {e : κ × β} (h : e ∈ dictSet a k v) : e ∈ a ∨ e = (k, v) := by
  unfold dictSet at h
  split at h
  · rcases List.mem_map.1 h with ⟨p, hp, he⟩
    by_cases hk : p.1 = k
    · rw [if_pos hk] at he
      exact Or.inr he.symm
    · rw [if_neg hk] at he
      exact Or.inl (he ▸ hp)
  · rcases List.mem_append.1 h with h | h
    · exact Or.inl h
    · exact Or.inr (by simpa using h)

theorem dictSet_of_hasKey_false {κ β : Type} [DecidableEq κ] {a : List (κ × β)}
    {k : κ} (v : β) (h : hasKey a k = false) : dictSet a k v = a ++ [(k, v)] := by
  simp [dictSet, h]

theorem hasKey_cons_eq_false {κ β : Type} [DecidableEq κ] {p : κ × β}
    {ps : List (κ × β)} {k : κ} (h : hasKey (p :: ps) k = false) :
    p.1 ≠ k ∧ hasKey ps k = false := by
  constructor
  · exact hasKey_eq_false_iff.1 h p (by simp)
  · exact hasKey_eq_false_iff.2 (fun q hq => hasKey_eq_false_iff.1 h q (by simp [hq]))

theorem eraseKey_append_last {κ β : Type} [DecidableEq κ] {a : List (κ × β)}
    {k : κ} (v : β) (h : hasKey a k = false) : eraseKey (a ++ [(k, v)]) k = a := by
  induction a with
  | nil => simp [eraseKey]
  | cons p ps ih =>
    rcases hasKey_cons_eq_false h with ⟨hp, hps⟩
    simp [eraseKey, hp, ih hps]

theorem lookupA_map_repl_self {κ β : Type} [DecidableEq κ] {k : κ} {v : β} :
    ∀ {a : List (κ × β)}, hasKey a k = true →
      lookupA (a.map (fun p => if p.1 = k then (k, v) else p)) k = some v := by
  intro a
  induction a with
  | nil => intro h; simp [hasKey] at h
  | cons p ps ih =>
    intro h
    by_cases hk : p.1 = k
    · show lookupA ((if p.1 = k then (k, v) else p) :: _) k = some v
      rw [if_pos hk]
      simp [lookupA]
    · have hps : hasKey ps k = true := by
        simp [hasKey] at h ⊢
        rcases h with h | h
        · exact absurd h hk
        · exact h
      show lookupA ((if p.1 = k then (k, v) else p) :: _) k = some v
      rw [if_neg hk]
      simpa [lookupA, hk] using ih hps

theorem lookupA_append_last_self {κ β : Type} [DecidableEq κ] {k : κ} {v : β} :
    ∀ {a : List (κ × β)}, hasKey a k = false →
      lookupA (a ++ [(k, v)]) k = some v := by
  intro a
  induction a with
  | nil => intro _; simp [lookupA]
  | cons p ps ih =>
    intro h
    rcases hasKey_cons_eq_false h with ⟨hp, hps⟩
    simpa [lookupA, hp] using ih hps

theorem lookupA_dictSet_self {κ β : Type} [DecidableEq κ] {a : List (κ × β)}
    (k : κ) (v : β) : lookupA (dictSet a k v) k = some v := by
  unfold dictSet
  split
  case isTrue h => exact lookupA_map_repl_self h
  case isFalse h => exact lookupA_append_last_self (by simpa using h)

theorem lookupA_map_repl_ne {κ β : Type} [DecidableEq κ] {j k : κ} {v : β}
    (h : j ≠ k) : ∀ (a : List (κ × β)),
      lookupA (a.map (fun p => if p.1 = k then (k, v) else p)) j = lookupA a j := by
  intro a
  induction a with
  | nil => simp [lookupA]
  | cons p ps ih =>
    by_cases hk : p.1 = k
    · have hpj : p.1 ≠ j := by rw [hk]; exact fun hc => h hc.symm
      show lookupA ((if p.1 = k then (k, v) else p) :: _) j = _
      rw [if_pos hk]
      simp only [lookupA, ih]
      rw [if_neg (show ¬((k, v).1 = j) from fun hc => h hc.symm),
        if_neg (show ¬(p.1 = j) from hpj)]
    · show lookupA ((if p.1 = k then (k, v) else p) :: _) j = _
      rw [if_neg hk]
      by_cases hj : p.1 = j
      · simp [lookupA, hj]
      · simp [lookupA, hj, ih]

theorem lookupA_append_last_ne {κ β : Type} [DecidableEq κ] {j k : κ} {v : β}
    (h : j ≠ k) : ∀ (a : List (κ × β)),
      lookupA (a ++ [(k, v)]) j = lookupA a j := by
  intro a
  induction a with
  | nil => simp [lookupA, Ne.symm h]
  | cons p ps ih =>
    by_cases hj : p.1 = j
    · simp [lookupA, hj]
    · simp [lookupA, hj, ih]

theorem lookupA_dictSet_ne {κ β : Type} [DecidableEq κ] {a : List (κ × β)}
    {j k : κ} (v : β) (h : j ≠ k) : lookupA (dictSet a k v) j = lookupA a j := by
  unfold dictSet
  split
  · exact lookupA_map_repl_ne h a
  · exact lookupA_append_last_ne h a

theorem mem_pyDedupGo {α : Type} [DecidableEq α] {x : α} :
    ∀ (l acc : List α), x ∈ pyDedupGo acc l ↔ x ∈ acc ∨ x ∈ l := by
  intro l
  induction l with
  | nil => intro acc; simp [pyDedupGo]
  | cons y ys ih =>
    intro acc
    unfold pyDedupGo
    rw [ih]
    by_cases hy : y ∈ acc
    · simp only [if_pos hy]
      constructor
      · rintro (h | h)
        · exact Or.inl h
        · exact Or.inr (List.mem_cons_of_mem _ h)
      · rintro (h | h)
        · exact Or.inl h
        · rcases List.mem_cons.1 h with rfl | h
          · exact Or.inl hy
          · exact Or.inr h
    · simp only [if_neg hy, List.mem_append]
      constructor
      · rintro ((h | h) | h)
        · exact Or.inl h
        · exact Or.inr (by simp at h; simp [h])
        · exact Or.inr (List.mem_cons_of_mem _ h)
      · rintro (h | h)
        · exact Or.inl (Or.inl h)
        · rcases List.mem_cons.1 h with rfl | h
          · exact Or.inl (Or.inr (by simp))
          · exact Or.inr h

theorem mem_pyDedup {α : Type} [DecidableEq α] {x : α} {l : List α} :
    x ∈ pyDedup l ↔ x ∈ l := by
  unfold pyDedup
  rw [mem_pyDedupGo]
  simp

theorem insertBy_perm {α : Type} (le : α → α → Bool) (x : α) :
    ∀ l : List α, List.Perm (insertBy le x l) (x :: l) := by
  intro l
  induction l with
  | nil => simp [insertBy]
  | cons y ys ih =>
    unfold insertBy
    split
    · exact List.Perm.refl _
    · exact (ih.cons y).trans (List.Perm.swap x y ys)

theorem sortBy_perm {α : Type} (le : α → α → Bool) :
    ∀ l : List α, List.Perm (sortBy le l) l := by
  intro l
  induction l with
  | nil => simp [sortBy]
  | cons x xs ih =>
    unfold sortBy
    exact (insertBy_perm le x (sortBy le xs)).trans (ih.cons x)

theorem mem_sortBy {α : Type} {le : α → α → Bool} {x : α} {l : List α} :
    x ∈ sortBy le l ↔ x ∈ l :=
  (sortBy_perm le l).mem_iff

theorem firstSome_eq_some {α β : Type} {f : α → Option β} {b : β} :
    ∀ {l : List α}, firstSome f l = some b → ∃ a, a ∈ l ∧ f a = some b := by
  intro l
  induction l with
  | nil => intro h; simp [firstSome] at h
  | cons x xs ih =>
    intro h
    unfold firstSome at h
    cases hx : f x with
    | some c =>
      rw [hx] at h
      simp only [] at h
      exact ⟨x, by simp, by rw [hx]; exact h⟩
    | none =>
      rw [hx] at h
      simp only [] at h
      rcases ih h with ⟨a, ha, hfa⟩
      exact ⟨a, List.mem_cons_of_mem _ ha, hfa⟩

theorem keyLtB_irrefl (a : Nat × Int) : keyLtB a a = false := by
  simp [keyLtB]

theorem keyLtB_trans {a b c : Nat × Int} (h1 : keyLtB a b = true)
    (h2 : keyLtB b c = true) : keyLtB a c = true := by
  simp [keyLtB] at h1 h2 ⊢
  omega

theorem not_keyLtB_trans {a b c : Nat × Int} (h1 : keyLtB a b = false)
    (h2 : keyLtB b c = false) : keyLtB a c = false := by
  simp [keyLtB] at h1 h2 ⊢
  omega

theorem pickMin_mem {α : Type} (key : α → Nat × Int) :
    ∀ (xs : List α) (best : α), pickMin key best xs ∈ best :: xs := by
  intro xs
  induction xs with
  | nil => intro best; simp [pickMin]
  | cons x xs ih =>
    intro best
    unfold pickMin
    split
    · rcases List.mem_cons.1 (ih x) with h | h
      · simp [h]
      · simp [List.mem_cons_of_mem _ h]
    · rcases List.mem_cons.1 (ih best) with h | h
      · simp [h]
      · simp [List.mem_cons_of_mem _ h]

theorem pickMin_not_lt {α : Type} (key : α → Nat × Int) :
    ∀ (xs : List α) (best u : α), u ∈ best :: xs →
      keyLtB (key u) (key (pickMin key best xs)) = false := by
  intro xs
  induction xs with
  | nil =>
    intro best u hu
    rcases List.mem_cons.1 hu with rfl | h
    · simp [pickMin, keyLtB_irrefl]
    · simp at h
  | cons x xs ih =>
    intro best u hu
    unfold pickMin
    split
    case isTrue hlt =>
      rcases List.mem_cons.1 hu with rfl | hu2
      · cases hb : keyLtB (key u) (key (pickMin key x xs)) with
        | false => rfl
        | true =>
          have hxr := ih x x (by simp)
          have := keyLtB_trans hlt hb
          rw [this] at hxr
          exact hxr
      · rcases List.mem_cons.1 hu2 with rfl | hu3
        · exact ih u u (by simp)
        · exact ih x u (List.mem_cons_of_mem _ hu3)
    case isFalse hnlt =>
      have hnlt2 : keyLtB (key x) (key best) = false := by
        cases h : keyLtB (key x) (key best) with
        | false => rfl
        | true => exact absurd h hnlt
      rcases List.mem_cons.1 hu with rfl | hu2
      · exact ih u u (by simp)
      · rcases List.mem_cons.1 hu2 with rfl | hu3
        · exact not_keyLtB_trans hnlt2 (ih best best (by simp))
        · exact ih best u (List.mem_cons_of_mem _ hu3)

theorem sameCore_refl (S : CSPSolver) : sameCore S S := ⟨rfl, rfl, rfl⟩

theorem sameCore_trans {S T U : CSPSolver} (h1 : sameCore S T) (h2 : sameCore T U) :
    sameCore S U :=
  ⟨h2.1.trans h1.1, h2.2.1.trans h1.2.1, h2.2.2.trans h1.2.2⟩

theorem tryValues_sameCore {btf : CSPSolver → Option Assignment × CSPSolver} {var : Var}
    (hb : ∀ S, sameCore S (btf S).2) :
    ∀ (vals : List Val) (S : CSPSolver), sameCore S (tryValues btf var S vals).2 := by
  intro vals
  induction vals with
  | nil => intro S; exact sameCore_refl S
  | cons value rest ih =>
    intro S
    unfold tryValues
    split
    · cases hbt : btf { S with assignment := dictSet S.assignment var value } with
      | mk o S2 =>
        have hcore : sameCore S S2 := by
          have := hb { S with assignment := dictSet S.assignment var value }
          rw [hbt] at this
          exact this
        cases o with
        | some r => exact hcore
        | none =>
          exact sameCore_trans hcore (ih { S2 with assignment := eraseKey S2.assignment var })
    · exact ih S

theorem backtrackFuel_sameCore : ∀ (f : Nat) (S : CSPSolver),
    sameCore S (backtrackFuel f S).2 := by
  intro f
  induction f with
  | zero => intro S; exact sameCore_refl S
  | succ f ih =>
    intro S
    unfold backtrackFuel
    split
    · exact sameCore_refl S
    · cases hsel : select_unassigned_variable S with
      | none => exact sameCore_refl S
      | some var => exact tryValues_sameCore ih _ S

theorem mem_unassignedVars {S : CSPSolver} {v : Var} :
    v ∈ unassignedVars S ↔ v ∈ S.vars ∧ hasKey S.assignment v = false := by
  simp [unassignedVars, List.mem_filter]

theorem select_some_unassigned {S : CSPSolver} {v : Var}
    (h : select_unassigned_variable S = some v) :
    v ∈ S.vars ∧ hasKey S.assignment v = false := by
  unfold select_unassigned_variable at h
  cases hu : unassignedVars S with
  | nil => rw [hu] at h; simp at h
  | cons x xs =>
    rw [hu] at h
    simp only [Option.some.injEq] at h
    have hm : v ∈ x :: xs := h ▸ pickMin_mem _ xs x
    rw [← hu] at hm
    exact mem_unassignedVars.1 hm

theorem select_some_min {S : CSPSolver} {v : Var}
    (h : select_unassigned_variable S = some v) :
    ∀ u ∈ unassignedVars S, keyLtB (selectKey S u) (selectKey S v) = false := by
  intro u hu
  unfold select_unassigned_variable at h
  cases hq : unassignedVars S with
  | nil => rw [hq] at h; simp at h
  | cons x xs =>
    rw [hq] at h
    simp only [Option.some.injEq] at h
    rw [hq] at hu
    exact h ▸ pickMin_not_lt _ xs x u hu

theorem tryValues_none_assignment {btf : CSPSolver → Option Assignment × CSPSolver}
    {var : Var}
    (hbN : ∀ S, (btf S).1 = none → (btf S).2.assignment = S.assignment) :
    ∀ (vals : List Val) (S : CSPSolver), hasKey S.assignment var = false →
      (tryValues btf var S vals).1 = none →
      (tryValues btf var S vals).2.assignment = S.assignment := by
  intro vals
  induction vals with
  | nil => intro S _ _; rfl
  | cons value rest ih =>
    intro S hk hnone
    unfold tryValues at hnone ⊢
    by_cases hcond : (is_consistent S var value S.assignment && forward_check S var value) = true
    · rw [if_pos hcond] at hnone ⊢
      revert hnone
      cases hbt : btf { S with assignment := dictSet S.assignment var value } with
      | mk o S2 =>
        cases o with
        | some r =>
          intro hnone
          have hcontra : (some r : Option Assignment) = none := hnone
          simp at hcontra
        | none =>
          intro hnone
          replace hnone :
              (tryValues btf var { S2 with assignment := eraseKey S2.assignment var } rest).1 =
                none := hnone
          show (tryValues btf var { S2 with assignment := eraseKey S2.assignment var } rest).2.assignment
              = S.assignment
          have hS2a : S2.assignment = dictSet S.assignment var value := by
            have := hbN { S with assignment := dictSet S.assignment var value } (by rw [hbt])
            rw [hbt] at this
            exact this
          have hS3a : (eraseKey S2.assignment var) = S.assignment := by
            rw [hS2a, dictSet_of_hasKey_false value hk, eraseKey_append_last value hk]
          have hres := ih { S2 with assignment := eraseKey S2.assignment var }
            (by simpa [hS3a] using hk) hnone
          rw [hres]
          exact hS3a
    · rw [if_neg (by simpa using hcond)] at hnone ⊢
      exact ih S hk hnone

theorem backtrackFuel_none_assignment : ∀ (f : Nat) (S : CSPSolver),
    (backtrackFuel f S).1 = none → (backtrackFuel f S).2.assignment = S.assignment := by
  intro f
  induction f with
  | zero => intro S _; rfl
  | succ f ih =>
    intro S hnone
    unfold backtrackFuel at hnone ⊢
    split at hnone <;> rename_i hlen
    · simp at hnone
    · rw [if_neg hlen]
      cases hsel : select_unassigned_variable S with
      | none => rfl
      | some var =>
        rw [hsel] at hnone
        exact tryValues_none_assignment ih _ S (select_some_unassigned hsel).2 hnone

theorem is_consistent_allC {S : CSPSolver} {var : Var} {value : Val}
    {a : Assignment} (h : is_consistent S var value a = true) :
    allC S.constraints (dictSet a var value) := by
  intro c hc
  exact List.all_eq_true.1 h c hc

theorem tryValues_some_sound {btf : CSPSolver → Option Assignment × CSPSolver}
    {var : Var}
    (hbF : ∀ S, sameCore S (btf S).2)
    (hbN : ∀ S, (btf S).1 = none → (btf S).2.assignment = S.assignment)
    (hbS : ∀ S A, (btf S).1 = some A →
      allC S.constraints S.assignment → (∀ e ∈ S.assignment, QDom S.domains e) →
      allC S.constraints A ∧ ∀ e ∈ A, QDom S.domains e) :
    ∀ (vals : List Val) (S : CSPSolver) (A : Assignment),
      hasKey S.assignment var = false →
      allC S.constraints S.assignment →
      (∀ e ∈ S.assignment, QDom S.domains e) →
      (∀ v ∈ vals, QDom S.domains (var, v)) →
      (tryValues btf var S vals).1 = some A →
      allC S.constraints A ∧ ∀ e ∈ A, QDom S.domains e := by
  intro vals
  induction vals with
  | nil => intro S A _ _ _ _ hsome; simp [tryValues] at hsome
  | cons value rest ih =>
    intro S A hk hC hQ hvals hsome
    unfold tryValues at hsome
    by_cases hcond : (is_consistent S var value S.assignment && forward_check S var value) = true
    · rw [if_pos hcond] at hsome
      revert hsome
      cases hbt : btf { S with assignment := dictSet S.assignment var value } with
      | mk o S2 =>
        cases o with
        | some r =>
          intro hsome
          have hr : (some r : Option Assignment) = some A := hsome
          have hrA : r = A := by simpa using hr
          have hcons : is_consistent S var value S.assignment = true := by
            have := hcond
            simp only [Bool.and_eq_true] at this
            exact this.1
          have hC1 : allC S.constraints (dictSet S.assignment var value) :=
            is_consistent_allC hcons
          have hQ1 : ∀ e ∈ dictSet S.assignment var value, QDom S.domains e := by
            intro e he
            rcases mem_dictSet he with he | he
            · exact hQ e he
            · rw [he]; exact hvals value (by simp)
          have := hbS { S with assignment := dictSet S.assignment var value } r
            (by rw [hbt]) hC1 hQ1
          exact hrA ▸ this
        | none =>
          intro hsome
          replace hsome :
              (tryValues btf var { S2 with assignment := eraseKey S2.assignment var } rest).1 =
                some A := hsome
          have hS2a : S2.assignment = dictSet S.assignment var value := by
            have := hbN { S with assignment := dictSet S.assignment var value } (by rw [hbt])
            rw [hbt] at this
            exact this
          have hS3a : (eraseKey S2.assignment var) = S.assignment := by
            rw [hS2a, dictSet_of_hasKey_false value hk, eraseKey_append_last value hk]
          have hcore : sameCore S S2 := by
            have := hbF { S with assignment := dictSet S.assignment var value }
            rw [hbt] at this
            exact this
          have hres := ih { S2 with assignment := eraseKey S2.assignment var } A
            (by simpa [hS3a] using hk)
            (by simpa [hcore.2.2, hS3a] using hC)
            (by simpa [hcore.2.1, hS3a] using hQ)
            (by simpa [hcore.2.1] using fun v hv => hvals v (List.mem_cons_of_mem _ hv))
            hsome
          constructor
          · simpa [hcore.2.2] using hres.1
          · simpa [hcore.2.1] using hres.2
    · rw [if_neg (by simpa using hcond)] at hsome
      exact ih S A hk hC hQ (fun v hv => hvals v (List.mem_cons_of_mem _ hv)) hsome

theorem mem_order_domain_values_QDom {S : CSPSolver} {var : Var} {v : Val}
    (h : v ∈ order_domain_values S var) : QDom S.domains (var, v) := by
  unfold order_domain_values domainOf at h
  cases hl : lookupA S.domains var with
  | none => rw [hl] at h; simp at h
  | some d => rw [hl] at h; exact ⟨d, hl, by simpa using h⟩

theorem backtrackFuel_some_sound : ∀ (f : Nat) (S : CSPSolver) (A : Assignment),
    (backtrackFuel f S).1 = some A →
    allC S.constraints S.assignment → (∀ e ∈ S.assignment, QDom S.domains e) →
    allC S.constraints A ∧ ∀ e ∈ A, QDom S.domains e := by
  intro f
  induction f with
  | zero => intro S A h _ _; simp [backtrackFuel] at h
  | succ f ih =>
    intro S A hsome hC hQ
    unfold backtrackFuel at hsome
    split at hsome <;> rename_i hlen
    · have hA : S.assignment = A := by simpa using hsome
      exact hA ▸ ⟨hC, hQ⟩
    · cases hsel : select_unassigned_variable S with
      | none => rw [hsel] at hsome; simp at hsome
      | some var =>
        rw [hsel] at hsome
        exact tryValues_some_sound (backtrackFuel_sameCore f)
          (backtrackFuel_none_assignment f) ih _ S A
          (select_some_unassigned hsel).2 hC hQ
          (fun v hv => mem_order_domain_values_QDom hv) hsome

theorem nfcAux_not_seen : ∀ (a : Assignment) (seen : List (Nat × Nat)),
    nfcAux a seen = true → ∀ e ∈ a, (e.2.1, e.1.2) ∉ seen := by
  intro a
  induction a with
  | nil => intro seen _ e he; simp at he
  | cons e0 rest ih =>
    intro seen h e he
    unfold nfcAux at h
    split at h
    · simp at h
    · rename_i hnot
      rcases List.mem_cons.1 he with rfl | he2
      · exact hnot
      · have := ih ((e0.2.1, e0.1.2) :: seen) h e he2
        exact fun hc => this (List.mem_cons_of_mem _ hc)

theorem nfcAux_pairwise : ∀ (a : Assignment) (seen : List (Nat × Nat)),
    nfcAux a seen = true →
    List.Pairwise (fun e1 e2 => (e1.2.1, e1.1.2) ≠ (e2.2.1, e2.1.2)) a := by
  intro a
  induction a with
  | nil => intro _ _; simp
  | cons e0 rest ih =>
    intro seen h
    unfold nfcAux at h
    split at h
    · simp at h
    · refine List.Pairwise.cons ?_ (ih _ h)
      intro e he
      have := nfcAux_not_seen rest ((e0.2.1, e0.1.2) :: seen) h e he
      intro hc
      exact this (by rw [← hc]; exact List.mem_cons_self _ _)

theorem nccAux_not_seen : ∀ (a : Assignment) (seen : List (Nat × Nat)),
    nccAux a seen = true → ∀ e ∈ a, (e.2.2, e.1.2) ∉ seen := by
  intro a
  induction a with
  | nil => intro seen _ e he; simp at he
  | cons e0 rest ih =>
    intro seen h e he
    unfold nccAux at h
    split at h
    · simp at h
    · rename_i hnot
      rcases List.mem_cons.1 he with rfl | he2
      · exact hnot
      · have := ih ((e0.2.2, e0.1.2) :: seen) h e he2
        exact fun hc => this (List.mem_cons_of_mem _ hc)

theorem nccAux_pairwise : ∀ (a : Assignment) (seen : List (Nat × Nat)),
    nccAux a seen = true →
    List.Pairwise (fun e1 e2 => (e1.2.2, e1.1.2) ≠ (e2.2.2, e2.1.2)) a := by
  intro a
  induction a with
  | nil => intro _ _; simp
  | cons e0 rest ih =>
    intro seen h
    unfold nccAux at h
    split at h
    · simp at h
    · refine List.Pairwise.cons ?_ (ih _ h)
      intro e he
      have := nccAux_not_seen rest ((e0.2.2, e0.1.2) :: seen) h e he
      intro hc
      exact this (by rw [← hc]; exact List.mem_cons_self _ _)

theorem find?_key_of_nodup {α β : Type} [DecidableEq β] (key : α → β) :
    ∀ (l : List α) (x : α), (l.map key).Nodup → x ∈ l →
      l.find? (fun y => key y = key x) = some x := by
  intro l
  induction l with
  | nil => intro x _ hx; simp at hx
  | cons g gs ih =>
    intro x hN hx
    rcases List.mem_cons.1 hx with rfl | hx2
    · rw [List.find?_cons_of_pos _ (by simp)]
    · have hgs : (gs.map key).Nodup := (List.nodup_cons.1 hN).2
      have hne : key g ≠ key x := by
        intro hc
        exact (List.nodup_cons.1 hN).1 (hc ▸ List.mem_map.2 ⟨x, hx2, rfl⟩)
      rw [List.find?_cons_of_neg _ (by simp [hne])]
      exact ih x hgs hx2

theorem findFaculty_of_nodup {inst : Instance} {f : Faculty}
    (hN : (inst.faculty.map (fun g => g.id)).Nodup) (hf : f ∈ inst.faculty) :
    findFaculty inst f.id = some f := by
  unfold findFaculty
  exact find?_key_of_nodup (fun g : Faculty => g.id) inst.faculty f hN hf

theorem assignedSubjectIds_nil_of_not_assigned {fid : Nat} {a : Assignment}
    (h : ∀ e ∈ a, e.2.1 ≠ fid) : assignedSubjectIds fid a = [] := by
  unfold assignedSubjectIds
  rw [List.filterMap_eq_nil_iff.2 (fun e he => by simp [h e he])]
  rfl

theorem faculty_requirements_iff {inst : Instance} (a : Assignment)
    (hN : (inst.faculty.map (fun g => g.id)).Nodup) :
    faculty_requirements_constraint inst a = true ↔ WorkloadInvariant inst a := by
  constructor
  · intro h f hf
    by_cases hmem : f.id ∈ pyDedup (a.map (fun e => e.2.1))
    · have hb := List.all_eq_true.1 h f.id hmem
      rw [findFaculty_of_nodup hN hf] at hb
      simpa using hb
    · have hnone : ∀ e ∈ a, e.2.1 ≠ f.id := by
        intro e he hc
        exact hmem (mem_pyDedup.2 (List.mem_map.2 ⟨e, he, hc⟩))
      rw [assignedSubjectIds_nil_of_not_assigned hnone]
      simp
  · intro h
    apply List.all_eq_true.2
    intro fid _
    cases hff : findFaculty inst fid with
    | none => simp
    | some f =>
      have hfm : f ∈ inst.faculty := List.mem_of_find?_eq_some hff
      have hfid : f.id = fid := by
        have := List.find?_some hff
        simpa using this
      simp only []
      rw [← hfid]
      simpa using h f hfm

theorem mem_ordered_subjects {inst : Instance} {s : Subject} :
    s ∈ ordered_subjects inst ↔ s ∈ inst.subjects := by
  unfold ordered_subjects
  constructor
  · intro h
    rcases List.mem_append.1 h with h | h
    · exact (List.mem_filter.1 h).1
    · exact (List.mem_filter.1 h).1
  · intro h
    by_cases hl : 0 < s.lab_hours
    · exact List.mem_append.2 (Or.inl (List.mem_filter.2 ⟨h, by simp [hl]⟩))
    · exact List.mem_append.2 (Or.inr (List.mem_filter.2 ⟨h, by simp; omega⟩))

theorem setupPairs_DomOK {inst : Instance} {p : Var × List Val}
    (hp : p ∈ setupPairs inst) : DomOK inst p.1 p.2 := by
  unfold setupPairs at hp
  rcases List.mem_flatMap.1 hp with ⟨subject, hsub, hmem⟩
  rcases List.mem_filterMap.1 hmem with ⟨timeslot, hts, heq⟩
  simp only [] at heq
  split at heq
  · simp at heq
  · rename_i hne
    have hp2 := Option.some.inj heq
    refine ⟨subject, mem_ordered_subjects.1 hsub, ?_, timeslot, hts, ?_, ?_, ?_⟩
    · rw [← hp2]
    · rw [← hp2]
    · rw [← hp2]
    · rw [← hp2]
      intro hc
      rw [← List.isEmpty_iff] at hc
      exact hne hc

theorem foldl_add_variable_vars :
    ∀ (pairs : List (Var × List Val)) (S0 : CSPSolver),
      (pairs.foldl (fun S p => add_variable S p.1 p.2) S0).vars =
        S0.vars ++ pairs.map (fun p => p.1) := by
  intro pairs
  induction pairs with
  | nil => intro S0; simp
  | cons q qs ih =>
    intro S0
    simp only [List.foldl_cons, List.map_cons]
    rw [ih]
    show (S0.vars ++ [q.1]) ++ qs.map (fun p => p.1) = S0.vars ++ q.1 :: qs.map (fun p => p.1)
    simp

theorem foldl_add_variable_lookup {P : Var → List Val → Prop} :
    ∀ (pairs : List (Var × List Val)), (∀ p ∈ pairs, P p.1 p.2) →
      ∀ (S0 : CSPSolver), (∀ v d, lookupA S0.domains v = some d → P v d) →
      ∀ v d,
        lookupA (pairs.foldl (fun S p => add_variable S p.1 p.2) S0).domains v = some d →
        P v d := by
  intro pairs
  induction pairs with
  | nil => intro _ S0 h0 v d h; exact h0 v d h
  | cons q qs ih =>
    intro hP S0 h0 v d h
    simp only [List.foldl_cons] at h
    refine ih (fun p hp => hP p (List.mem_cons_of_mem _ hp)) (add_variable S0 q.1 q.2)
      ?_ v d h
    intro w e h2
    by_cases hv : w = q.1
    · subst hv
      have h3 : lookupA (dictSet S0.domains q.1 q.2) q.1 = some e := h2
      rw [lookupA_dictSet_self] at h3
      have := hP q (by simp)
      rw [Option.some.inj h3] at this
      exact this
    · have h3 : lookupA (dictSet S0.domains q.1 q.2) w = some e := h2
      rw [lookupA_dictSet_ne q.2 hv] at h3
      exact h0 w e h3

theorem setup_csp_vars (inst : Instance) :
    (setup_csp inst).vars = (setupPairs inst).map (fun p => p.1) := by
  unfold setup_csp
  show ((setupPairs inst).foldl (fun S p => add_variable S p.1 p.2) CSPSolver.empty).vars = _
  rw [foldl_add_variable_vars]
  rfl

theorem setup_csp_lookup_DomOK {inst : Instance} {v : Var} {d : List Val}
    (h : lookupA (setup_csp inst).domains v = some d) : DomOK inst v d := by
  unfold setup_csp at h
  refine foldl_add_variable_lookup (setupPairs inst)
    (fun p hp => setupPairs_DomOK hp) CSPSolver.empty ?_ v d h
  intro w e h2
  simp [CSPSolver.empty, lookupA] at h2

theorem mem_sortedDomainValues {inst : Instance} {subject : Subject}
    {timeslot : Timeslot} {fv : Val}
    (h : fv ∈ sortedDomainValues inst subject timeslot) :
    (∃ fac ∈ inst.faculty, fac.id = fv.1 ∧ subject.id ∈ fac.qualified_subjects) ∧
    ∃ c ∈ inst.classrooms, c.id = fv.2 ∧ (0 < subject.lab_hours → c.has_lab = true) := by
  unfold sortedDomainValues at h
  rcases List.mem_map.1 h with ⟨pr, hpr, hfv⟩
  rw [mem_sortBy] at hpr
  unfold rawDomainValues at hpr
  rcases List.mem_flatMap.1 hpr with ⟨fid, hfid, hmem⟩
  revert hmem
  cases hff : findFaculty inst fid with
  | none =>
    intro hmem
    have : pr ∈ ([] : List (Val × Rat)) := hmem
    simp at this
  | some fac =>
    intro hmem
    replace hmem : pr ∈ (eligible_classrooms inst (decide (0 < subject.lab_hours))).map
        (fun c => ((fid, c.id), calculate_faculty_preference_score inst fac timeslot [])) :=
      hmem
    rcases List.mem_map.1 hmem with ⟨c, hc, hpr2⟩
    rcases List.mem_filterMap.1 hfid with ⟨fac2, hfac2, hsome⟩
    have hqual : subject.id ∈ fac2.qualified_subjects ∧ fac2.id = fid := by
      revert hsome
      split
      · intro hsome
        rename_i hin
        exact ⟨hin, Option.some.inj hsome⟩
      · intro hsome; simp at hsome
    have hfv2 : fv = (fid, c.id) := by rw [← hfv, ← hpr2]
    constructor
    · exact ⟨fac2, hfac2, by rw [hfv2, hqual.2], by exact hqual.1⟩
    · revert hc
      unfold eligible_classrooms
      by_cases hl : 0 < subject.lab_hours
      · rw [if_pos (by simp [hl])]
        intro hc
        rcases List.mem_filter.1 hc with ⟨hcm, hclab⟩
        exact ⟨c, hcm, by rw [hfv2], fun _ => by simpa using hclab⟩
      · rw [if_neg (by simp [hl])]
        intro hc
        exact ⟨c, hc, by rw [hfv2], fun hcon => absurd hcon hl⟩

theorem solve_some_sound {S : CSPSolver} {A : Assignment}
    (h : (CSPSolver.solve S).1 = some A) (hC : allC S.constraints []) :
    allC S.constraints A ∧ ∀ e ∈ A, QDom S.domains e := by
  unfold CSPSolver.solve at h
  have hres := backtrackFuel_some_sound (S.vars.length + 1)
    { S with assignment := [] } A h (by exact hC) (by intro e he; simp at he)
  exact hres

theorem setup_csp_constraints (inst : Instance) :
    (setup_csp inst).constraints =
      [faculty_requirements_constraint inst,
       no_faculty_conflicts_constraint,
       no_classroom_collision_constraint,
       handle_labs_constraint inst] := rfl

/-- C1. For a well-formed instance (distinct faculty ids and distinct
subject ids), every assignment returned by the CSP solve path of
FacultyScheduler.solve satisfies all five hard invariants: the per-faculty
workload cap over distinct subjects, no faculty teaching twice in one
timeslot, no classroom used twice in one timeslot, lab subjects only in
lab classrooms, and every assigned faculty qualified for its subject. -/
theorem C1_hard_constraint_soundness (inst : Instance) (A : Assignment)
    (hF : (inst.faculty.map (fun g => g.id)).Nodup)
    (hS : (inst.subjects.map (fun s => s.id)).Nodup)
    (h : scheduler_solve inst = some A) :
    WorkloadInvariant inst A ∧ FacultyConflictInvariant A ∧
    ClassroomCollisionInvariant A ∧ LabPlacementInvariant inst A ∧
    QualificationInvariant inst A := by
  have h2 : (CSPSolver.solve
      { setup_csp inst with assignment := hybridSeed inst (setup_csp inst) }).1 = some A := h
  have hCnil : allC (setup_csp inst).constraints [] := by
    intro c hc
    rw [setup_csp_constraints] at hc
    simp only [List.mem_cons, List.mem_singleton] at hc
    rcases hc with rfl | rfl | rfl | rfl | hc
    · rfl
    · rfl
    · rfl
    · rfl
    · simp at hc
  have hsound := solve_some_sound h2 hCnil
  have hCA : allC (setup_csp inst).constraints A := hsound.1
  have hQA : ∀ e ∈ A, QDom (setup_csp inst).domains e := hsound.2
  have hfr : faculty_requirements_constraint inst A = true :=
    hCA _ (by rw [setup_csp_constraints]; simp)
  have hnfc : no_faculty_conflicts_constraint A = true :=
    hCA _ (by rw [setup_csp_constraints]; simp)
  have hncc : no_classroom_collision_constraint A = true :=
    hCA _ (by rw [setup_csp_constraints]; simp)
  refine ⟨(faculty_requirements_iff A hF).1 hfr, ?_, ?_, ?_, ?_⟩
  · exact (nfcAux_pairwise A [] hnfc).imp (fun hne heq hts => hne (by rw [heq, hts]))
  · exact nccAux_pairwise A [] hncc
  · intro e he s hs hsid hlab
    rcases hQA e he with ⟨d, hld, hmem⟩
    rcases setup_csp_lookup_DomOK hld with
      ⟨subj, hsubj, hsubjid, tsl, htsl, htslid, hdef, hne⟩
    rw [hdef] at hmem
    rcases (mem_sortedDomainValues hmem).2 with ⟨c, hcm, hcid, hcl⟩
    have hss : subj = s :=
      List.inj_on_of_nodup_map hS hsubj hs (by rw [hsubjid, hsid])
    exact ⟨c, hcm, hcid, hcl (by rw [hss]; exact hlab)⟩
  · intro e he
    rcases hQA e he with ⟨d, hld, hmem⟩
    rcases setup_csp_lookup_DomOK hld with
      ⟨subj, hsubj, hsubjid, tsl, htsl, htslid, hdef, hne⟩
    rw [hdef] at hmem
    rcases (mem_sortedDomainValues hmem).1 with ⟨fac, hfm, hfid, hqual⟩
    exact ⟨fac, hfm, hfid, by rw [← hsubjid]; exact hqual⟩

theorem adjacency_any_eq (inst : Instance) (tsl : Timeslot) (slots : List Nat) :
    ((inst.timeslots.filterMap (fun ts =>
        if ts.day = tsl.day ∧ ts.id ≠ tsl.id ∧
            ((ts.id : Int) - (tsl.id : Int)).natAbs = 1
        then some ts.id else none)).any (fun tsId => tsId ∈ slots))
    = inst.timeslots.any (fun ts =>
        decide (ts.day = tsl.day) &&
        decide (((ts.id : Int) - (tsl.id : Int)).natAbs = 1) &&
        decide (ts.id ∈ slots)) := by
  rw [Bool.eq_iff_iff]
  simp only [List.any_eq_true, List.mem_filterMap]
  constructor
  · rintro ⟨tsId, ⟨ts, hts, hif⟩, hmem⟩
    revert hif
    split
    · rename_i hcond
      intro hif
      have hid : ts.id = tsId := Option.some.inj hif
      subst hid
      refine ⟨ts, hts, ?_⟩
      simp only [Bool.and_eq_true, decide_eq_true_eq]
      exact ⟨⟨hcond.1, hcond.2.2⟩, by simpa using hmem⟩
    · intro hif; simp at hif
  · rintro ⟨ts, hts, hb⟩
    simp only [Bool.and_eq_true, decide_eq_true_eq] at hb
    have hneq : ts.id ≠ tsl.id := by
      intro hc
      have := hb.1.2
      rw [hc] at this
      simp at this
    exact ⟨ts.id, ⟨ts, hts, by rw [if_pos ⟨hb.1.1, hneq, hb.1.2⟩]⟩, by simpa using hb.2⟩

/-- C8. The preference score computed by
calculate_faculty_preference_score equals the closed-form spec formula:
day bonus 3, period bonus 2, the consecutive adjustment
(consecutive_preference / 5) * 2 exactly when an adjacent same-day class
already exists, all multiplied by the clamped normalized weight. -/
theorem C8_preference_score_formula (inst : Instance) (faculty : Faculty)
    (timeslot : Timeslot) (current_schedule : List (Nat × List Nat)) :
    calculate_faculty_preference_score inst faculty timeslot current_schedule =
      specPreferenceScore inst faculty timeslot current_schedule := by
  unfold calculate_faculty_preference_score specPreferenceScore
  simp only []
  cases hl : lookupA current_schedule faculty.id with
  | none =>
    by_cases hday : timeslot.day ∈ faculty.day_preferences <;>
      by_cases hper : timeslot.period ∈ faculty.time_preferences <;>
        simp [hday, hper]
  | some slots =>
    have hadj := adjacency_any_eq inst timeslot slots
    by_cases hday : timeslot.day ∈ faculty.day_preferences <;>
      by_cases hper : timeslot.period ∈ faculty.time_preferences <;>
        cases hb : (inst.timeslots.any (fun ts =>
          decide (ts.day = timeslot.day) &&
          decide (((ts.id : Int) - (timeslot.id : Int)).natAbs = 1) &&
          decide (ts.id ∈ slots))) <;>
          simp [hday, hper, hadj, hb]

/-- C6. At every engine state, the variable returned by
select_unassigned_variable has a domain no larger than that of any other
unassigned variable, and among unassigned variables with the same minimal
domain size its degree count (other unassigned variables sharing a subject
id or timeslot id) is maximal. -/
theorem C6_mrv_degree_selection (S : CSPSolver) (v u : Var)
    (hsel : select_unassigned_variable S = some v) (hu : u ∈ unassignedVars S) :
    (domainOf S v).length ≤ (domainOf S u).length ∧
    ((domainOf S u).length = (domainOf S v).length →
      count_constraints S u ≤ count_constraints S v) := by
  have h := select_some_min hsel u hu
  simp only [keyLtB, selectKey, Bool.or_eq_false_iff, Bool.and_eq_false_iff,
    decide_eq_false_iff_not, not_lt] at h
  constructor
  · omega
  · intro he
    omega

/-- C7. The workload constraint accepts an assignment exactly when, for
every faculty record of a well-formed instance, the hours of the distinct
subjects assigned to its id sum to at most its max hours. -/
theorem C7_workload_characterisation (inst : Instance) (a : Assignment)
    (hN : (inst.faculty.map (fun g => g.id)).Nodup) :
    faculty_requirements_constraint inst a = true ↔ WorkloadInvariant inst a :=
  faculty_requirements_iff a hN

/-- C10. The backtracking search leaves the registered variables, the
domains and the constraint list untouched, and whenever it reports failure
the assignment map is exactly what it was at entry (every commit is paired
with an undo). -/
theorem C10_backtrack_mutates_only_assignment (f : Nat) (S : CSPSolver)
    (r : Option Assignment) (S2 : CSPSolver) (h : backtrackFuel f S = (r, S2)) :
    S2.vars = S.vars ∧ S2.domains = S.domains ∧ S2.constraints = S.constraints ∧
    (r = none → S2.assignment = S.assignment) := by
  have hc := backtrackFuel_sameCore f S
  rw [h] at hc
  refine ⟨hc.1, hc.2.1, hc.2.2, fun hr => ?_⟩
  have hn := backtrackFuel_none_assignment f S (by rw [h, hr])
  rw [h] at hn
  exact hn

theorem try_timeslot_some {inst : Instance} {subject : Subject}
    {possible : List Classroom} {needs_lab : Bool} {st : DirectState}
    {f : Faculty} {tcc : Timeslot × Nat × (Rat × Nat)} {st2 : DirectState}
    (h : try_timeslot inst subject possible needs_lab st f tcc = some st2) :
    ∃ c, st2 = direct_commit st subject f tcc.1 c := by
  unfold try_timeslot at h
  revert h
  cases hr : rooms_sorted needs_lab (free_rooms st possible tcc.1.id) with
  | nil => intro h; simp at h
  | cons c cs => intro h; exact ⟨c, (Option.some.inj h).symm⟩

theorem assign_for_faculty_some {inst : Instance} {subject : Subject}
    {possible : List Classroom} {needs_lab : Bool} {st : DirectState}
    {f : Faculty} {st2 : DirectState}
    (h : assign_for_faculty inst subject possible needs_lab st f = some st2) :
    ∃ t c, st2 = direct_commit st subject f t c := by
  unfold assign_for_faculty at h
  split at h
  · simp at h
  · rcases firstSome_eq_some h with ⟨tcc, _, hfa⟩
    rcases try_timeslot_some hfa with ⟨c, hc⟩
    exact ⟨tcc.1, c, hc⟩

theorem tryAssignSubject_schedule {inst : Instance} {st : DirectState}
    {subject : Subject} {st2 : DirectState}
    (h : tryAssignSubject inst st subject = some st2) :
    ∃ e : DirectEntry, st2.schedule = st.schedule ++ [e] ∧
      e.subject_id = subject.id := by
  unfold tryAssignSubject at h
  rcases firstSome_eq_some h with ⟨f, _, hfa⟩
  rcases assign_for_faculty_some hfa with ⟨t, c, rfl⟩
  exact ⟨_, rfl, rfl⟩

theorem directSolveAux_schedule {inst : Instance} :
    ∀ (subs : List Subject) (st st2 : DirectState),
      directSolveAux inst st subs = some st2 →
      st2.schedule.map (fun e => e.subject_id) =
        st.schedule.map (fun e => e.subject_id) ++ subs.map (fun s => s.id) := by
  intro subs
  induction subs with
  | nil =>
    intro st st2 h
    have : st = st2 := Option.some.inj h
    simp [this]
  | cons s rest ih =>
    intro st st2 h
    unfold directSolveAux at h
    revert h
    cases h1 : tryAssignSubject inst st s with
    | none => intro h; simp at h
    | some st1 =>
      intro h
      replace h : directSolveAux inst st1 rest = some st2 := h
      rcases tryAssignSubject_schedule h1 with ⟨e, hsched, hsid⟩
      rw [ih st1 st2 h, hsched]
      simp [hsid]

theorem ordered_subjects_direct_perm (inst : Instance) :
    List.Perm (ordered_subjects_direct inst) inst.subjects := by
  unfold ordered_subjects_direct
  refine ((sortBy_perm _ _).append (sortBy_perm _ _)).trans ?_
  have hpt : inst.subjects.filter (fun s => decide (s.lab_hours = 0)) =
      inst.subjects.filter (fun s => !(decide (0 < s.lab_hours))) := by
    apply List.filter_congr
    intro s _
    cases hls : s.lab_hours <;> simp
  rw [hpt]
  exact List.filter_append_perm _ _

/-- C9. Whenever direct_solve succeeds, its schedule covers the subject
ids of the instance exactly once each (the subject ids on the schedule are
a permutation of the subject table's ids), and the subject loop fails
outright as soon as one subject admits no (faculty, timeslot, classroom)
combination, with no backtracking across subjects. -/
theorem C9_direct_solve_coverage (inst : Instance) :
    (∀ st, direct_solve inst = some st →
      List.Perm (st.schedule.map (fun e => e.subject_id))
        (inst.subjects.map (fun s => s.id))) ∧
    (∀ (subject : Subject) (rest : List Subject) (st : DirectState),
      tryAssignSubject inst st subject = none →
      directSolveAux inst st (subject :: rest) = none) := by
  constructor
  · intro st h
    have hs := directSolveAux_schedule (ordered_subjects_direct inst)
      (initDirectState inst) st h
    have hinit : (initDirectState inst).schedule = [] := rfl
    rw [hinit] at hs
    simp only [List.map_nil, List.nil_append] at hs
    rw [hs]
    exact (ordered_subjects_direct_perm inst).map (fun s => s.id)
  · intro subject rest st h
    unfold directSolveAux
    rw [h]

theorem sortedDomainValues_nil_of_no_lab_classroom {inst : Instance}
    {subject : Subject} (timeslot : Timeslot) (hs : 0 < subject.lab_hours)
    (hlab : ∀ c ∈ inst.classrooms, c.has_lab = false) :
    sortedDomainValues inst subject timeslot = [] := by
  have helig : eligible_classrooms inst (decide (0 < subject.lab_hours)) = [] := by
    rw [show decide (0 < subject.lab_hours) = true by simpa using hs]
    unfold eligible_classrooms
    rw [if_pos rfl]
    exact List.filter_eq_nil_iff.2 (fun c hc => by simp [hlab c hc])
  have hraw : rawDomainValues inst subject timeslot = [] := by
    unfold rawDomainValues
    apply List.flatMap_eq_nil_iff.2
    intro fid _
    cases hff : findFaculty inst fid with
    | none => rfl
    | some fac => simp [helig]
  unfold sortedDomainValues
  rw [hraw]
  rfl

/-- C4 amended: in an instance with distinct subject ids, at least one lab
subject and no lab-capable classroom, setup_csp silently drops every
variable of every lab subject (they are never registered, with no error
report), and if the remaining variables admit a complete assignment,
FacultyScheduler.solve returns success with a schedule that omits all lab
subjects, instead of reporting NoSolutionFound. -/
theorem C4_amended_silent_drop (inst : Instance)
    (hS : (inst.subjects.map (fun s => s.id)).Nodup)
    (hlab : ∀ c ∈ inst.classrooms, c.has_lab = false) :
    (∀ s ∈ inst.subjects, 0 < s.lab_hours → ∀ t : Nat,
      (s.id, t) ∉ (setup_csp inst).vars) ∧
    (∀ A, scheduler_solve inst = some A → ∀ e ∈ A, ∀ s ∈ inst.subjects,
      s.id = e.1.1 → s.lab_hours = 0) := by
  constructor
  · intro s hs hslab t hmem
    rw [setup_csp_vars] at hmem
    rcases List.mem_map.1 hmem with ⟨p, hp, hp1⟩
    rcases setupPairs_DomOK hp with ⟨subj, hsub, hsubid, tsl, _, _, hdef, hne⟩
    have hid : subj.id = s.id := by rw [hsubid, hp1]
    have hss : subj = s := List.inj_on_of_nodup_map hS hsub hs hid
    apply hne
    rw [hdef, hss]
    exact sortedDomainValues_nil_of_no_lab_classroom tsl hslab hlab
  · intro A hsol e he s hs hsid
    have h2 : (CSPSolver.solve
        { setup_csp inst with assignment := hybridSeed inst (setup_csp inst) }).1 =
        some A := hsol
    have hCnil : allC (setup_csp inst).constraints [] := by
      intro c hc
      rw [setup_csp_constraints] at hc
      simp only [List.mem_cons, List.mem_singleton] at hc
      rcases hc with rfl | rfl | rfl | rfl | hc
      · rfl
      · rfl
      · rfl
      · rfl
      · simp at hc
    have hsound := solve_some_sound h2 hCnil
    have hQA : ∀ e ∈ A, QDom (setup_csp inst).domains e := hsound.2
    rcases hQA e he with ⟨d, hld, hmem⟩
    rcases setup_csp_lookup_DomOK hld with
      ⟨subj, hsubj, hsubjid, tsl, _, _, hdef, _⟩
    have hss : subj = s :=
      List.inj_on_of_nodup_map hS hsubj hs (by rw [hsubjid, hsid])
    by_contra hzero
    have hpos : 0 < s.lab_hours := Nat.pos_of_ne_zero hzero
    rw [hdef, hss, sortedDomainValues_nil_of_no_lab_classroom tsl hpos hlab] at hmem
    simp at hmem

/-- C2 evidence. In state S2bug the candidate value for (1, 1) passes the
consistency check, and after the tentative commit the still-unassigned
variable (2, 1) has no consistent value left, yet forward_check returns
true: the wipeout is only ever turned into a failure inside the debug
branch gated on the extended assignment having exactly 11 entries,
contradicting the docstring of forward_check. -/
theorem C2_forward_check_bug :
    is_consistent S2bug (1, 1) (1, 1) S2bug.assignment = true ∧
    ((2, 1) ∈ S2bug.vars ∧
      hasKey (dictSet S2bug.assignment (1, 1) (1, 1)) (2, 1) = false ∧
      (domainOf S2bug (2, 1)).any (fun x =>
        is_consistent S2bug (2, 1) x (dictSet S2bug.assignment (1, 1) (1, 1))) = false) ∧
    forward_check S2bug (1, 1) (1, 1) = true := by
  decide

/-- C3 evidence. The caller-provided seed (subject 1 to faculty 2) is a
complete assignment satisfying every constraint, yet the solve path
returns faculty 1: CSPSolver.solve resets the assignment to the empty
dict, discarding the seed. -/
theorem C3_seed_discarded :
    scheduler_solve_pre instC3 preC3 = some [((1, 1), (1, 1))] ∧
    lookupA preC3 (1, 1) = some (2, 1) ∧
    preC3.length = (setup_csp instC3).vars.length ∧
    ((setup_csp instC3).constraints.all (fun c => c preC3)) = true ∧
    ¬ (((1, 1) : Val) = (2, 1)) :=
  of_decide_eq_true (by with_unfolding_all rfl)

/-- C4 counterexample. instC4 contains a lab subject and no lab classroom,
so the claim demands failure; instead the lab variable (1, 1) is never
registered and solve succeeds with a schedule containing only the non-lab
subject 2. -/
theorem C4_counterexample :
    (∃ s ∈ instC4.subjects, 0 < s.lab_hours) ∧
    (∀ c ∈ instC4.classrooms, c.has_lab = false) ∧
    (((1, 1) : Var) ∉ (setup_csp instC4).vars) ∧
    scheduler_solve instC4 = some [((2, 1), (1, 1))] ∧
    (∀ e ∈ [(((2, 1) : Var), ((1, 1) : Val))], e.1.1 ≠ 1) := by
  decide

/-- C4 witness: the lab-subject variable of instC4 is absent from the
registered variables. -/
theorem C4_amended_witness : (((1 : Nat), (1 : Nat)) : Var) ∉ (setup_csp instC4).vars :=
  (C4_amended_silent_drop instC4 (by decide) (by decide)).1
    ⟨1, "L", 3, 2⟩ (by decide) (by decide) 1

/-- C5 counterexample. Registering (1, 1) twice raises nothing: the
variable list simply holds it twice and the stored domain is the second
one. -/
theorem C5_counterexample :
    S5b.vars = [(1, 1), (1, 1)] ∧ lookupA S5b.domains (1, 1) = some [(2, 2)] := by
  decide

/-- C5 amended. add_variable never fails: a repeated registration is
silently accepted, appending the variable a second time and overwriting
its stored domain with (a copy of) the new one. -/
theorem C5_amended_duplicate_registration (S : CSPSolver) (var : Var)
    (domain : List Val) (h : var ∈ S.vars) :
    (add_variable S var domain).vars = S.vars ++ [var] ∧
    lookupA (add_variable S var domain).domains var = some domain :=
  ⟨rfl, lookupA_dictSet_self var domain⟩

/-- C5 witness at the concrete duplicate registration. -/
theorem C5_amended_witness :
    (add_variable S5a (1, 1) [(2, 2)]).vars = S5a.vars ++ [(1, 1)] ∧
    lookupA (add_variable S5a (1, 1) [(2, 2)]).domains (1, 1) = some [(2, 2)] :=
  C5_amended_duplicate_registration S5a (1, 1) [(2, 2)] (by decide)

/-- C1 witness: the invariants hold of the assignment the solve path
returns on the feasible instance instW. -/
theorem C1_witness :
    WorkloadInvariant instW [((1, 1), (1, 1))] ∧
    FacultyConflictInvariant [((1, 1), (1, 1))] ∧
    ClassroomCollisionInvariant [((1, 1), (1, 1))] ∧
    LabPlacementInvariant instW [((1, 1), (1, 1))] ∧
    QualificationInvariant instW [((1, 1), (1, 1))] :=
  C1_hard_constraint_soundness instW [((1, 1), (1, 1))] (by decide) (by decide) (by rfl)

/-- C6 witness: in S6sel the engine selects (1, 2); its domain is minimal
and its degree beats the tied variable (2, 1). -/
theorem C6_witness :
    (domainOf S6sel (1, 2)).length ≤ (domainOf S6sel (2, 1)).length ∧
    ((domainOf S6sel (2, 1)).length = (domainOf S6sel (1, 2)).length →
      count_constraints S6sel (2, 1) ≤ count_constraints S6sel (1, 2)) :=
  C6_mrv_degree_selection S6sel (1, 2) (2, 1) (by decide) (by decide)

/-- C7 witness at a concrete instance and assignment. -/
theorem C7_witness :
    faculty_requirements_constraint instW [((1, 1), (1, 1))] = true ↔
      WorkloadInvariant instW [((1, 1), (1, 1))] :=
  C7_workload_characterisation instW [((1, 1), (1, 1))] (by decide)

/-- C9 witness: on instW the schedule covers exactly the subject ids, and
on instF9 (no faculty) the subject loop fails at its head subject. -/
theorem C9_witness :
    List.Perm (stW9.schedule.map (fun e => e.subject_id))
      (instW.subjects.map (fun s => s.id)) ∧
    directSolveAux instF9 (initDirectState instF9) [⟨1, "S", 3, 0⟩] = none :=
  ⟨(C9_direct_solve_coverage instW).1 stW9 (by rfl),
   (C9_direct_solve_coverage instF9).2 ⟨1, "S", 3, 0⟩ [] (initDirectState instF9) (by rfl)⟩

/-- C10 witness: a search that fails on S2bug returns with the assignment
and every other field exactly as at entry, after an actual commit/undo
round trip (the first variable is committed, the recursion fails, and the
commit is deleted again). -/
theorem C10_witness :
    (backtrackFuel 3 S2bug).2.assignment = S2bug.assignment ∧
    (backtrackFuel 3 S2bug).2.vars = S2bug.vars := by
  have happ := C10_backtrack_mutates_only_assignment 3 S2bug
    (backtrackFuel 3 S2bug).1 (backtrackFuel 3 S2bug).2 rfl
  exact ⟨happ.2.2.2 (by rfl), happ.1⟩
